import Mathlib

/-!
Verification development for the chess engine of `random_unnamed_chess_game`
(`src/api/chessmove.rs`, `src/api/chessstate.rs`, `src/server/mod.rs`).

The Rust code is shallowly embedded:
* `Rank` and `File` are `repr(u8)` enums with values 0..7; they are embedded
  as `Fin 8` (the `From<u8>` conversions mask with `& 7`, see `rankFromU8`).
* the board `[[Option<ChessPiece>; 8]; 8]` is embedded as a total function
  `Fin 8 → Fin 8 → Option ChessPiece` indexed `board rank file`, matching
  `board[x][y]` with `(x, y) = (rank, file)`.
* `u8` counters are embedded as `Nat`; the only arithmetic done on them
  (`fifty_move_rule += 1`, `abs_diff`, `saturating_add_signed`,
  `wrapping_add_signed`) is modelled with the exact wrapping/saturating
  semantics where the bound can be reached, and with plain `Nat` arithmetic
  where it cannot (documented at each definition).
* `moves::king` and `ChessState::is_attacked` are mutually recursive in the
  Rust source (the castling branch queries attacked squares, and the attack
  sweep evaluates king moves).  On boards with several kings of one color the
  Rust recursion does not terminate (it repeats a call signature and
  overflows the stack); every terminating run repeats no signature, and the
  signatures of the nested calls range over at most the 10 castling-relevant
  squares times the two colors, so every terminating Rust run has recursion
  depth well below 64.  The embedding therefore passes an explicit fuel,
  fixed to 64 in the top-level wrappers, and returns `false` if fuel runs
  out (which no terminating Rust run can reach).
-/

namespace RUCG

inductive ChessColor where
  | White : ChessColor
  | Black : ChessColor
deriving DecidableEq, Repr, Fintype

/-- `impl Not for ChessColor` in `chessmove.rs`. -/
def ChessColor.not : ChessColor → ChessColor
  | ChessColor.White => ChessColor.Black
  | ChessColor.Black => ChessColor.White

inductive ChessPieceType where
  | King : ChessPieceType
  | Queen : ChessPieceType
  | Rook : ChessPieceType
  | Knight : ChessPieceType
  | Bishop : ChessPieceType
  | Pawn : ChessPieceType
deriving DecidableEq, Repr, Fintype

structure ChessPiece where
  color : ChessColor
  piece_type : ChessPieceType
deriving DecidableEq, Repr, Fintype

/-- `pub type Chessboard = [[Option<ChessPiece>; 8]; 8]`, as a total function
`board rank file`. -/
abbrev Chessboard := Fin 8 → Fin 8 → Option ChessPiece

structure ChessboardLocation where
  rank : Fin 8
  file : Fin 8
deriving DecidableEq, Repr, Fintype

/-- `ChessMove { from, to }`; `from` and `to` are Lean keywords, so the
fields are named `start` and `dest`. -/
structure ChessMove where
  start : ChessboardLocation
  dest : ChessboardLocation
deriving DecidableEq, Repr

/-- `impl From<u8> for Rank`: `transmute(value & 7)`.  The mask makes the
conversion total. -/
def rankFromU8 (v : Nat) : Fin 8 :=
  ⟨v &&& 7, lt_of_le_of_lt (Nat.and_le_right) (by omega)⟩

/-- `impl From<u8> for File`: `transmute(value & 7)`. -/
def fileFromU8 (v : Nat) : Fin 8 :=
  ⟨v &&& 7, lt_of_le_of_lt (Nat.and_le_right) (by omega)⟩

/-- `ChessboardLocation::new` with `u8` arguments (both `Into` conversions
mask with `& 7`). -/
def locNew (r f : Nat) : ChessboardLocation :=
  ⟨rankFromU8 r, fileFromU8 f⟩

/-- `u8::abs_diff` on coordinate values. -/
def absDiff (a b : Nat) : Nat := if a ≤ b then b - a else a - b

/-- `u8::saturating_add_signed` for the pawn direction offsets; the values
involved (`rank ≤ 7`, offset in `-2..2`) never reach the upper `u8` bound,
so only the saturation at 0 is observable, which `Int.toNat` provides. -/
def satAddSigned (a : Nat) (d : Int) : Nat := ((a : Int) + d).toNat

/-- `u8::wrapping_add_signed`, used by the adjacent-king scan of
`check_game_end`. -/
def wrapAddSigned (a : Nat) (d : Int) : Nat := (((a : Int) + d) % 256).toNat

inductive EndReason where
  | Checkmate : EndReason
  | Stalemate : EndReason
  | Resignation : EndReason
  | Agreement : EndReason
  | InsufficientMaterial : EndReason
  | FiftyMoveRule : EndReason
  | RepetitionOfMoves : EndReason
deriving DecidableEq, Repr

inductive GameEnd where
  | White : EndReason → GameEnd
  | Black : EndReason → GameEnd
  | Draw : EndReason → GameEnd
deriving DecidableEq, Repr

/-- `ChessState` (`chessstate.rs`).  `fifty_move_rule` is a `u8` in Rust;
it is embedded as `Nat` because the server consults `check_game_end` after
every completed move, which ends the game at 50, and a Rust debug build
panics on `u8` overflow, so values ≥ 51 never survive a running game and
the wrap at 255 is unreachable. -/
structure ChessState where
  board : Chessboard
  turn : ChessColor
  en_passant : Option (Fin 8)
  fifty_move_rule : Nat
  white_king_moved : Bool
  black_king_moved : Bool
  white_a_rook_moved : Bool
  black_a_rook_moved : Bool
  white_h_rook_moved : Bool
  black_h_rook_moved : Bool

/-- `ChessState::get_location`. -/
def ChessState.get_location (s : ChessState) (location : ChessboardLocation) :
    Option ChessPiece :=
  s.board location.rank location.file

/-- `ChessState::set_location`. -/
def ChessState.set_location (s : ChessState) (location : ChessboardLocation)
    (piece : Option ChessPiece) : ChessState :=
  { s with board := fun r f =>
      if r = location.rank ∧ f = location.file then piece else s.board r f }

/-- All 64 board locations in the scan order used throughout the source:
outer loop `x` (rank), inner loop `y` (file). -/
def allLocs : List ChessboardLocation :=
  (List.finRange 8).flatMap (fun r => (List.finRange 8).map (fun f => ⟨r, f⟩))

/-- Named `Fin 8` values of the `Rank` enum (`One = 0` … `Eight = 7`). -/
abbrev rankOne : Fin 8 := 0
abbrev rankTwo : Fin 8 := 1
abbrev rankThree : Fin 8 := 2
abbrev rankFour : Fin 8 := 3
abbrev rankFive : Fin 8 := 4
abbrev rankSix : Fin 8 := 5
abbrev rankSeven : Fin 8 := 6
abbrev rankEight : Fin 8 := 7

/-- Named `Fin 8` values of the `File` enum (`A = 0` … `H = 7`). -/
abbrev fileA : Fin 8 := 0
abbrev fileB : Fin 8 := 1
abbrev fileC : Fin 8 := 2
abbrev fileD : Fin 8 := 3
abbrev fileE : Fin 8 := 4
abbrev fileF : Fin 8 := 5
abbrev fileG : Fin 8 := 6
abbrev fileH : Fin 8 := 7

/-- The index iterator `(to..=from).rev().chain(from..=to)` used by
`moves::rook` and `moves::bishop` (`a` is `from`, `b` is `to`). -/
def chainList (a b : Nat) : List Nat :=
  (List.range' b (a + 1 - b)).reverse ++ List.range' a (b + 1 - a)

/-- The shared body of the ray loops in `moves::rook` / `moves::bishop`:
walk the cells after the start square; an empty cell continues, a friendly
piece fails, an enemy piece succeeds exactly on the target square; an
exhausted ray succeeds. -/
def raySearch (s : ChessState) (target : ChessboardLocation) :
    List ChessboardLocation → Bool
  | [] => true
  | c :: rest =>
    match s.get_location c with
    | none => raySearch s target rest
    | some p => if p.color = s.turn then false else decide (c = target)

/-- `moves::rook`. -/
def rookMove (s : ChessState) (m : ChessMove) : Bool :=
  if m.start.rank = m.dest.rank then
    raySearch s m.dest (((chainList m.start.file.val m.dest.file.val).drop 1).map
      (fun i => ChessboardLocation.mk m.start.rank (fileFromU8 i)))
  else if m.start.file = m.dest.file then
    raySearch s m.dest (((chainList m.start.rank.val m.dest.rank.val).drop 1).map
      (fun i => ChessboardLocation.mk (rankFromU8 i) m.start.file))
  else false

/-- `moves::bishop`. -/
def bishopMove (s : ChessState) (m : ChessMove) : Bool :=
  if m.start.rank.val + m.start.file.val = m.dest.rank.val + m.dest.file.val
      ∨ (7 - m.start.rank.val) + m.start.file.val
        = (7 - m.dest.rank.val) + m.dest.file.val then
    raySearch s m.dest
      ((((chainList m.start.rank.val m.dest.rank.val).zip
          (chainList m.start.file.val m.dest.file.val)).drop 1).map
        (fun p => locNew p.1 p.2))
  else false

/-- `moves::knight`. -/
def knightMove (s : ChessState) (m : ChessMove) : Bool :=
  let rd := absDiff m.start.rank.val m.dest.rank.val
  let fd := absDiff m.start.file.val m.dest.file.val
  if rd = 2 ∧ fd = 1 ∨ rd = 1 ∧ fd = 2 then
    match s.get_location m.dest with
    | some p => decide (p.color ≠ s.turn)
    | none => true
  else false

/-- `moves::pawn`. -/
def pawnMove (s : ChessState) (m : ChessMove) : Bool :=
  let dir : Int := match s.turn with
    | ChessColor.White => 1
    | ChessColor.Black => -1
  if m.start.file = m.dest.file then
    if satAddSigned m.start.rank.val dir = m.dest.rank.val then
      (s.get_location m.dest).isNone
    else if (m.start.rank = rankTwo ∨ m.start.rank = rankSeven)
        ∧ satAddSigned m.start.rank.val (2 * dir) = m.dest.rank.val then
      (s.get_location m.dest).isNone
        && (s.get_location
            ⟨rankFromU8 (satAddSigned m.start.rank.val dir), m.start.file⟩).isNone
    else false
  else if absDiff m.start.file.val m.dest.file.val = 1 then
    if satAddSigned m.start.rank.val dir = m.dest.rank.val
        ∧ (s.get_location m.dest).isSome = true then
      match s.get_location m.dest with
      | some p => decide (p.color ≠ s.turn)
      | none => false
    else
      match s.en_passant with
      | some f =>
        if f = m.dest.file then
          match s.turn with
          | ChessColor.White => decide (m.start.rank = rankFive ∧ m.dest.rank = rankSix)
          | ChessColor.Black => decide (m.start.rank = rankFour ∧ m.dest.rank = rankThree)
        else false
      | none => false
  else false

/-- `moves::king`, with the `state.is_attacked` queries of the castling
branch abstracted into the parameter `att` (this is the standard fueling
transform for the mutual recursion between `moves::king` and
`ChessState::is_attacked`, see the header comment). -/
def kingMoveA (att : ChessState → ChessboardLocation → Bool) (s : ChessState)
    (m : ChessMove) : Bool :=
  let rd := absDiff m.start.rank.val m.dest.rank.val
  let fd := absDiff m.start.file.val m.dest.file.val
  if rd ≤ 1 ∧ fd ≤ 1 then
    match s.get_location m.dest with
    | some p => decide (p.color ≠ s.turn)
    | none => true
  else if fd = 2 ∧ rd = 0 then
    let rankOpt : Option (Fin 8) := match s.turn with
      | ChessColor.White =>
        if s.white_king_moved = true ∨ s.white_a_rook_moved = true ∧ m.dest.file = fileC
            ∨ s.white_h_rook_moved = true ∧ m.dest.file = fileG then none
        else some rankOne
      | ChessColor.Black =>
        if s.black_king_moved = true ∨ s.black_a_rook_moved = true ∧ m.dest.file = fileC
            ∨ s.black_h_rook_moved = true ∧ m.dest.file = fileG then none
        else some rankEight
    match rankOpt with
    | none => false
    | some rk =>
      if att s ⟨rk, fileE⟩ = true then false
      else if m.dest.file = fileC
            ∧ (s.get_location ⟨rk, fileB⟩).isNone = true
            ∧ (s.get_location ⟨rk, fileC⟩).isNone = true
            ∧ att s ⟨rk, fileC⟩ = false
            ∧ (s.get_location ⟨rk, fileD⟩).isNone = true
            ∧ att s ⟨rk, fileD⟩ = false
          ∨ m.dest.file = fileG
            ∧ (s.get_location ⟨rk, fileF⟩).isNone = true
            ∧ att s ⟨rk, fileF⟩ = false
            ∧ (s.get_location ⟨rk, fileG⟩).isNone = true
            ∧ att s ⟨rk, fileG⟩ = false
      then true else false
  else false

/-- The per-piece dispatch of `is_valid_move` / `is_attacked`. -/
def pieceMoveA (att : ChessState → ChessboardLocation → Bool) (s : ChessState)
    (t : ChessPieceType) (m : ChessMove) : Bool :=
  match t with
  | ChessPieceType.King => kingMoveA att s m
  | ChessPieceType.Queen => rookMove s m || bishopMove s m
  | ChessPieceType.Rook => rookMove s m
  | ChessPieceType.Knight => knightMove s m
  | ChessPieceType.Bishop => bishopMove s m
  | ChessPieceType.Pawn => pawnMove s m

/-- `ChessState::is_attacked`, fueled (see the header comment). -/
def isAttackedFuel : Nat → ChessState → ChessboardLocation → Bool
  | 0, _, _ => false
  | n + 1, s, location =>
    let copy : ChessState := { s with turn := s.turn.not }
    allLocs.any (fun l =>
      if l = location then false
      else
        match copy.get_location l with
        | none => false
        | some piece =>
          if piece.color ≠ copy.turn then false
          else pieceMoveA (fun s2 l2 => isAttackedFuel n s2 l2) copy piece.piece_type
            ⟨l, location⟩)

/-- The fuel used by all top-level entry points; any terminating run of the
Rust mutual recursion has depth well below this (header comment). -/
def attackFuel : Nat := 64

/-- `ChessState::is_attacked` (top-level entry). -/
def ChessState.is_attacked (s : ChessState) (location : ChessboardLocation) : Bool :=
  isAttackedFuel attackFuel s location

/-- The `match piece.piece_type` dispatch of `is_valid_move`, at top fuel. -/
def pieceMove (s : ChessState) (t : ChessPieceType) (m : ChessMove) : Bool :=
  pieceMoveA (fun a b => isAttackedFuel attackFuel a b) s t m

/-- The king-location scan at the end of `is_valid_move` (first square, in
rank-major order, holding the king of the side to move). -/
def ChessState.findKing (s : ChessState) : Option ChessboardLocation :=
  allLocs.find? (fun l =>
    decide (s.get_location l = some ⟨s.turn, ChessPieceType.King⟩))

/-- `ChessState::is_valid_move`. -/
def ChessState.is_valid_move (s : ChessState) (m : ChessMove) : Bool :=
  if m.dest = m.start then false
  else
    match s.get_location m.start with
    | none => false
    | some piece =>
      if piece.color ≠ s.turn then false
      else if pieceMove s piece.piece_type m = false then false
      else
        let copy := (s.set_location m.start none).set_location m.dest (some piece)
        match copy.findKing with
        | some l => !copy.is_attacked l
        | none => false

/-- `piece.is_some_and(|p| p.piece_type == ChessPieceType::Pawn)`. -/
def isPawn (p : Option ChessPiece) : Bool :=
  match p with
  | some piece => decide (piece.piece_type = ChessPieceType.Pawn)
  | none => false

/-- The `// en passant intermission` block of `move_piece` (`s` is the state
after `take_piece(from)`); the returned `Bool` is the initial value of
`out`. -/
def stepEnPassantCapture (s : ChessState) (m : ChessMove) (piece : Option ChessPiece) :
    Bool × ChessState :=
  if isPawn piece = true ∧ (s.get_location m.dest).isNone = true
      ∧ m.dest.file ≠ m.start.file then
    (true, s.set_location ⟨m.start.rank, m.dest.file⟩ none)
  else (false, s)

/-- The `// fifty move rule` block of `move_piece`. -/
def stepFifty (s : ChessState) (m : ChessMove) (piece : Option ChessPiece) : ChessState :=
  if (s.get_location m.dest).isSome = true ∨ isPawn piece = true then
    { s with fifty_move_rule := 0 }
  else { s with fifty_move_rule := s.fifty_move_rule + 1 }

/-- The `// more en passant` block of `move_piece`. -/
def stepEnPassantFlag (s : ChessState) (m : ChessMove) (piece : Option ChessPiece) :
    ChessState :=
  if isPawn piece = true ∧ absDiff m.start.rank.val m.dest.rank.val = 2 then
    { s with en_passant := some m.dest.file }
  else { s with en_passant := none }

/-- One iteration of the `// rook castling flags` loop of `move_piece`. -/
def stepRookFlag (s : ChessState) (x : ChessboardLocation) : ChessState :=
  if x.rank = rankOne ∧ x.file = fileA then { s with white_a_rook_moved := true }
  else if x.rank = rankOne ∧ x.file = fileH then { s with white_h_rook_moved := true }
  else if x.rank = rankEight ∧ x.file = fileA then { s with black_a_rook_moved := true }
  else if x.rank = rankEight ∧ x.file = fileH then { s with black_h_rook_moved := true }
  else s

/-- The `// castling` block of `move_piece` (it fires on the from-square and
to-file alone; it does not test which piece moved). -/
def stepCastle (s : ChessState) (m : ChessMove) (out : Bool) : Bool × ChessState :=
  if (m.start.rank = rankOne ∨ m.start.rank = rankEight) ∧ m.start.file = fileE then
    let p : Fin 8 × ChessState := match s.turn with
      | ChessColor.White => (rankOne, { s with white_king_moved := true })
      | ChessColor.Black => (rankEight, { s with black_king_moved := true })
    let rk := p.1
    let s1 := p.2
    if m.dest.file = fileG then
      let piece := s1.get_location ⟨rk, fileH⟩
      (true, (s1.set_location ⟨rk, fileH⟩ none).set_location ⟨rk, fileF⟩ piece)
    else if m.dest.file = fileC then
      let piece := s1.get_location ⟨rk, fileA⟩
      (true, (s1.set_location ⟨rk, fileA⟩ none).set_location ⟨rk, fileD⟩ piece)
    else (out, s1)
  else (out, s)

/-- `ChessState::move_piece`.  `Err(InvalidMoveError)` is `none` in the
first component (the error carries no data); `Ok(out)` is `some out`.  The
second component is the state after the call (`&mut self` in Rust). -/
def ChessState.move_piece (s : ChessState) (m : ChessMove) : Option Bool × ChessState :=
  if s.is_valid_move m = false then (none, s)
  else
    let piece := s.get_location m.start
    let s1 := s.set_location m.start none
    let r2 := stepEnPassantCapture s1 m piece
    let s3 := stepFifty r2.2 m piece
    let s4 := s3.set_location m.dest piece
    let s5 := stepEnPassantFlag s4 m piece
    let s6 := stepRookFlag (stepRookFlag s5 m.start) m.dest
    let r7 := stepCastle s6 m r2.1
    (some r7.1, { r7.2 with turn := r7.2.turn.not })

/-- `self.board.iter().flatten().filter_map(ToOwned::to_owned)`: the pieces
on the board in rank-major scan order. -/
def boardPieces (b : Chessboard) : List ChessPiece :=
  allLocs.filterMap (fun l => b l.rank l.file)

/-- The insufficient-material branch of `check_game_end`: exactly three
pieces remain and the first non-king piece is a bishop or a knight. -/
def insufficientMaterial (s : ChessState) : Bool :=
  (boardPieces s.board).length = 3 &&
    (match (boardPieces s.board).find?
        (fun p => decide (p.piece_type ≠ ChessPieceType.King)) with
     | some p => decide (p.piece_type = ChessPieceType.Bishop
         ∨ p.piece_type = ChessPieceType.Knight)
     | none => false)

/-- First square of row `x` (inner `y` loop) holding the king of the side
to move, as scanned by `check_game_end`. -/
def rowKing (s : ChessState) (x : Fin 8) : Option ChessboardLocation :=
  ((List.finRange 8).find? (fun y =>
    decide (s.board x y = some ⟨s.turn, ChessPieceType.King⟩))).map
    (fun y => ⟨x, y⟩)

/-- The offset list of the adjacent-king scan in `check_game_end`. -/
def kingOffsets : List (Int × Int) :=
  [(-1, -1), (-1, 0), (-1, 1), (0, 1), (1, 1), (1, 0), (1, -1), (0, -1)]

/-- The inner offset loop of the adjacent-king scan: `true` iff some offset
passes the wraparound guard (`!(rank <= 7 || file <= 7)`) and `moves::king`
accepts the wrapped move, which makes `check_game_end` return `None`
early. -/
def adjEscape (s : ChessState) (loc : ChessboardLocation) : Bool :=
  kingOffsets.any (fun d =>
    let rank := wrapAddSigned loc.rank.val d.1
    let file := wrapAddSigned loc.file.val d.2
    if rank ≤ 7 ∨ file ≤ 7 then false
    else kingMoveA (fun a b => isAttackedFuel attackFuel a b) s ⟨loc, locNew rank file⟩)

/-- The whole adjacent-king scan of `check_game_end`: `Except.error ()`
models the early `return None`; otherwise it yields the final value of
`king_location` (the `break` leaves only the inner `y` loop, so a later row
with a king overwrites it). -/
def kingScan (s : ChessState) : Except Unit (Option ChessboardLocation) :=
  (List.finRange 8).foldl (fun acc x =>
    match acc with
    | Except.error e => Except.error e
    | Except.ok cur =>
      match rowKing s x with
      | none => Except.ok cur
      | some loc =>
        if adjEscape s loc = true then Except.error () else Except.ok (some loc))
    (Except.ok none)

/-- The value of `king_location` alone (the scan with the adjacent-square
check removed). -/
def kingScanSimple (s : ChessState) : Option ChessboardLocation :=
  (List.finRange 8).foldl (fun cur x =>
    match rowKing s x with
    | none => cur
    | some loc => some loc) none

/-- The exhaustive `(from, to)` sweep of `check_game_end`. -/
def existsValidMove (s : ChessState) : Bool :=
  allLocs.any (fun l1 => allLocs.any (fun l2 => s.is_valid_move ⟨l1, l2⟩))

/-- The terminal classification shared by both detector variants (the code
after the sweep): the `king is gone?` error branch returns
`Draw(Checkmate)`. -/
def endVerdict (s : ChessState) (kloc : Option ChessboardLocation) : Option GameEnd :=
  if existsValidMove s = true then none
  else
    match kloc with
    | none => some (GameEnd.Draw EndReason.Checkmate)
    | some l =>
      some (if s.is_attacked l = true then
          match s.turn with
          | ChessColor.White => GameEnd.Black EndReason.Checkmate
          | ChessColor.Black => GameEnd.White EndReason.Checkmate
        else GameEnd.Draw EndReason.Stalemate)

/-- `ChessState::check_game_end`. -/
def ChessState.check_game_end (s : ChessState) (move_history : List Chessboard) :
    Option GameEnd :=
  if s.fifty_move_rule = 50 then some (GameEnd.Draw EndReason.FiftyMoveRule)
  else if move_history.countP (fun b => decide (b = s.board)) = 3 then
    some (GameEnd.Draw EndReason.RepetitionOfMoves)
  else if insufficientMaterial s = true then
    some (GameEnd.Draw EndReason.InsufficientMaterial)
  else
    match kingScan s with
    | Except.error _ => none
    | Except.ok kloc => endVerdict s kloc

/-- `check_game_end` with the adjacent-king short-circuit scan removed, as
the spec directs implementers to treat it ("rely solely on the exhaustive
sweep"); the king-location computation is kept. -/
def checkGameEndNoScan (s : ChessState) (move_history : List Chessboard) :
    Option GameEnd :=
  if s.fifty_move_rule = 50 then some (GameEnd.Draw EndReason.FiftyMoveRule)
  else if move_history.countP (fun b => decide (b = s.board)) = 3 then
    some (GameEnd.Draw EndReason.RepetitionOfMoves)
  else if insufficientMaterial s = true then
    some (GameEnd.Draw EndReason.InsufficientMaterial)
  else endVerdict s (kingScanSimple s)

/-- The nibble encoded for one square by `compress_chessboard`: 0 for an
empty square, otherwise a 3-bit piece code plus `0b1000` for White. -/
def squareCode (p : Option ChessPiece) : Nat :=
  match p with
  | none => 0
  | some piece =>
    (match piece.piece_type with
      | ChessPieceType.King => 1
      | ChessPieceType.Queen => 2
      | ChessPieceType.Rook => 3
      | ChessPieceType.Knight => 4
      | ChessPieceType.Bishop => 5
      | ChessPieceType.Pawn => 6)
    ||| (if piece.color = ChessColor.White then 8 else 0)

/-- One row of `compress_chessboard`: `*i <<= 4; *i |= code` over the
files.  Each row packs 8 nibbles into exactly 32 bits, so `u32` arithmetic
never truncates and `Nat` is a faithful model. -/
def compressRow (row : Fin 8 → Option ChessPiece) : Nat :=
  (List.finRange 8).foldl (fun i y => i <<< 4 ||| squareCode (row y)) 0

/-- `compress_chessboard` (`chessmove.rs`); the `[u32; 8]` result is
modelled as a list of the 8 row words. -/
def compress_chessboard (b : Chessboard) : List Nat :=
  (List.finRange 8).map (fun x => compressRow (b x))

/-- The back rank of `Default::default()` for one color. -/
def backRank (c : ChessColor) (f : Fin 8) : Option ChessPiece :=
  some ⟨c, match f.val with
    | 0 => ChessPieceType.Rook
    | 1 => ChessPieceType.Knight
    | 2 => ChessPieceType.Bishop
    | 3 => ChessPieceType.Queen
    | 4 => ChessPieceType.King
    | 5 => ChessPieceType.Bishop
    | 6 => ChessPieceType.Knight
    | _ => ChessPieceType.Rook⟩

/-- The starting board of `Default::default()`. -/
def initialBoard : Chessboard := fun r f =>
  match r.val with
  | 0 => backRank ChessColor.White f
  | 1 => some ⟨ChessColor.White, ChessPieceType.Pawn⟩
  | 6 => some ⟨ChessColor.Black, ChessPieceType.Pawn⟩
  | 7 => backRank ChessColor.Black f
  | _ => none

/-- `impl Default for ChessState`. -/
def initialState : ChessState where
  board := initialBoard
  turn := ChessColor.White
  en_passant := none
  fifty_move_rule := 0
  white_king_moved := false
  black_king_moved := false
  white_a_rook_moved := false
  black_a_rook_moved := false
  white_h_rook_moved := false
  black_h_rook_moved := false

/-! ### Basic lemmas about board access and validity -/

theorem get_set_self (s : ChessState) (l : ChessboardLocation) (p : Option ChessPiece) :
    (s.set_location l p).get_location l = p := by
  simp [ChessState.set_location, ChessState.get_location]

theorem get_set_ne (s : ChessState) (l l2 : ChessboardLocation) (p : Option ChessPiece)
    (h : l2 ≠ l) : (s.set_location l p).get_location l2 = s.get_location l2 := by
  simp only [ChessState.set_location, ChessState.get_location]
  have : ¬(l2.rank = l.rank ∧ l2.file = l.file) := by
    intro hc
    exact h (by cases l2; cases l; simp_all)
  simp [this]

theorem is_valid_move_ne (s : ChessState) (m : ChessMove)
    (h : s.is_valid_move m = true) : m.dest ≠ m.start := by
  intro he
  simp [ChessState.is_valid_move, he] at h

/-! ### C3: `move_piece` returns `InvalidMove` exactly on illegal moves and
then leaves the state untouched -/

/-- C3: `move_piece` returns the `InvalidMove` error exactly when
`is_valid_move` is false, and in that case the state after the call is the
state before the call (all fields, the board included). -/
theorem move_piece_invalid_iff_and_unchanged (s : ChessState) (m : ChessMove) :
    ((s.move_piece m).1 = none ↔ s.is_valid_move m = false) ∧
    ((s.move_piece m).1 = none → (s.move_piece m).2 = s) := by
  by_cases h : s.is_valid_move m = false
  · simp [ChessState.move_piece, h]
  · simp [ChessState.move_piece, h]

/-- Witness for C3 at a concrete input: the blocked rook move a1-a3 from
the starting position is rejected and leaves the state unchanged. -/
theorem move_piece_invalid_witness :
    (initialState.move_piece ⟨⟨0, 0⟩, ⟨2, 0⟩⟩).1 = none ∧
    (initialState.move_piece ⟨⟨0, 0⟩, ⟨2, 0⟩⟩).2 = initialState := by
  have h := move_piece_invalid_iff_and_unchanged initialState ⟨⟨0, 0⟩, ⟨2, 0⟩⟩
  exact ⟨h.1.mpr (by decide), h.2 (h.1.mpr (by decide))⟩

/-! ### Field-preservation lemmas for the `move_piece` pipeline -/

theorem stepEnPassantCapture_fifty (s : ChessState) (m : ChessMove)
    (piece : Option ChessPiece) :
    (stepEnPassantCapture s m piece).2.fifty_move_rule = s.fifty_move_rule := by
  unfold stepEnPassantCapture ChessState.set_location
  split <;> rfl

theorem stepEnPassantFlag_fifty (s : ChessState) (m : ChessMove)
    (piece : Option ChessPiece) :
    (stepEnPassantFlag s m piece).fifty_move_rule = s.fifty_move_rule := by
  unfold stepEnPassantFlag
  split <;> rfl

theorem stepRookFlag_fifty (s : ChessState) (x : ChessboardLocation) :
    (stepRookFlag s x).fifty_move_rule = s.fifty_move_rule := by
  unfold stepRookFlag
  split_ifs <;> rfl

theorem stepCastle_fifty (s : ChessState) (m : ChessMove) (out : Bool) :
    (stepCastle s m out).2.fifty_move_rule = s.fifty_move_rule := by
  unfold stepCastle ChessState.set_location
  cases s.turn <;> dsimp only <;> split_ifs <;> rfl

theorem stepRookFlag_ep (s : ChessState) (x : ChessboardLocation) :
    (stepRookFlag s x).en_passant = s.en_passant := by
  unfold stepRookFlag
  split_ifs <;> rfl

theorem stepCastle_ep (s : ChessState) (m : ChessMove) (out : Bool) :
    (stepCastle s m out).2.en_passant = s.en_passant := by
  unfold stepCastle ChessState.set_location
  cases s.turn <;> dsimp only <;> split_ifs <;> rfl

/-! ### C7: half-move clock -/

/-- The fifty-move-rule test of `move_piece` evaluated on the state after
the take and the possible en-passant removal agrees with the same test on
the original state. -/
theorem fifty_cond_eq (s : ChessState) (m : ChessMove) (hne : m.dest ≠ m.start) :
    (((stepEnPassantCapture (s.set_location m.start none) m
        (s.get_location m.start)).2.get_location m.dest).isSome = true
      ∨ isPawn (s.get_location m.start) = true)
    ↔ ((s.get_location m.dest).isSome = true
      ∨ isPawn (s.get_location m.start) = true) := by
  unfold stepEnPassantCapture
  split
  · rename_i hcond
    constructor
    · intro _
      exact Or.inr hcond.1
    · intro _
      exact Or.inr hcond.1
  · rw [get_set_ne s m.start m.dest none hne]

/-- C7: a successful `move_piece` resets the half-move clock to 0 when the
move captures a piece (destination occupied; the en-passant capture is a
pawn move and also resets) or moves a pawn, and otherwise increments it;
and `check_game_end` reports the fifty-move-rule draw whenever the clock is
50, before considering any other terminal condition (the history and board
are arbitrary). -/
theorem fifty_move_clock_spec (s : ChessState) (m : ChessMove) (hist : List Chessboard) :
    (s.is_valid_move m = true →
      (s.move_piece m).2.fifty_move_rule =
        if (s.get_location m.dest).isSome = true ∨ isPawn (s.get_location m.start) = true
        then 0 else s.fifty_move_rule + 1) ∧
    (s.fifty_move_rule = 50 →
      s.check_game_end hist = some (GameEnd.Draw EndReason.FiftyMoveRule)) := by
  constructor
  · intro h
    have hne := is_valid_move_ne s m h
    unfold ChessState.move_piece
    rw [if_neg (by simp [h])]
    dsimp only
    rw [stepCastle_fifty, stepRookFlag_fifty, stepRookFlag_fifty, stepEnPassantFlag_fifty]
    show (stepFifty (stepEnPassantCapture (s.set_location m.start none) m
        (s.get_location m.start)).2 m (s.get_location m.start)).fifty_move_rule = _
    unfold stepFifty
    by_cases hC : (s.get_location m.dest).isSome = true
        ∨ isPawn (s.get_location m.start) = true
    · rw [if_pos ((fifty_cond_eq s m hne).mpr hC), if_pos hC]
    · rw [if_neg (fun hx => hC ((fifty_cond_eq s m hne).mp hx)), if_neg hC]
      dsimp only
      rw [stepEnPassantCapture_fifty]
      rfl
  · intro h
    unfold ChessState.check_game_end
    rw [if_pos h]

/-- A board with only the two kings (White: a1, Black: h8). -/
def kingsOnlyBoard : Chessboard := fun r f =>
  if r = 0 ∧ f = 0 then some ⟨ChessColor.White, ChessPieceType.King⟩
  else if r = 7 ∧ f = 7 then some ⟨ChessColor.Black, ChessPieceType.King⟩
  else none

/-- The two-kings position with the half-move clock at 50, used as the C7
witness. -/
def fiftyState : ChessState where
  board := kingsOnlyBoard
  turn := ChessColor.White
  en_passant := none
  fifty_move_rule := 50
  white_king_moved := false
  black_king_moved := false
  white_a_rook_moved := false
  black_a_rook_moved := false
  white_h_rook_moved := false
  black_h_rook_moved := false

/-- Witness for C7: from `fiftyState` the quiet king move a1-b1 raises the
clock to 51, and the detector declares the fifty-move draw at clock 50. -/
theorem fifty_move_clock_witness :
    (fiftyState.move_piece ⟨⟨0, 0⟩, ⟨0, 1⟩⟩).2.fifty_move_rule = 51 ∧
    fiftyState.check_game_end [] = some (GameEnd.Draw EndReason.FiftyMoveRule) := by
  have h := fifty_move_clock_spec fiftyState ⟨⟨0, 0⟩, ⟨0, 1⟩⟩ []
  refine ⟨?_, h.2 rfl⟩
  rw [h.1 (by decide)]
  decide

/-! ### C8: the en-passant file -/

/-- C8: after every successful `move_piece` the `en_passant` field is
`some (destination file)` exactly when the moved piece is a pawn that
changed rank by exactly 2, and `none` after every other move (so a flag
set by a double push is cleared by the very next completed move). -/
theorem en_passant_flag_spec (s : ChessState) (m : ChessMove)
    (h : s.is_valid_move m = true) :
    (s.move_piece m).2.en_passant =
      if isPawn (s.get_location m.start) = true
          ∧ absDiff m.start.rank.val m.dest.rank.val = 2
      then some m.dest.file else none := by
  unfold ChessState.move_piece
  rw [if_neg (by simp [h])]
  dsimp only
  rw [stepCastle_ep, stepRookFlag_ep, stepRookFlag_ep]
  unfold stepEnPassantFlag
  split <;> rfl

/-- Witness for C8: the double push e2-e4 from the starting position sets
the en-passant file to e (4). -/
theorem en_passant_flag_witness :
    (initialState.move_piece ⟨⟨1, 4⟩, ⟨3, 4⟩⟩).2.en_passant = some (4 : Fin 8) := by
  rw [en_passant_flag_spec initialState ⟨⟨1, 4⟩, ⟨3, 4⟩⟩ (by decide)]
  decide

/-! ### C9: the six castling-rights flags are monotone -/

/-- `b` keeps every moved-flag that is already set in `a`. -/
def flagsLe (a b : ChessState) : Prop :=
  (a.white_king_moved = true → b.white_king_moved = true) ∧
  (a.black_king_moved = true → b.black_king_moved = true) ∧
  (a.white_a_rook_moved = true → b.white_a_rook_moved = true) ∧
  (a.black_a_rook_moved = true → b.black_a_rook_moved = true) ∧
  (a.white_h_rook_moved = true → b.white_h_rook_moved = true) ∧
  (a.black_h_rook_moved = true → b.black_h_rook_moved = true)

theorem flagsLe_refl (a : ChessState) : flagsLe a a :=
  ⟨id, id, id, id, id, id⟩

theorem flagsLe_trans {a b c : ChessState} (h1 : flagsLe a b) (h2 : flagsLe b c) :
    flagsLe a c :=
  ⟨fun h => h2.1 (h1.1 h), fun h => h2.2.1 (h1.2.1 h),
   fun h => h2.2.2.1 (h1.2.2.1 h), fun h => h2.2.2.2.1 (h1.2.2.2.1 h),
   fun h => h2.2.2.2.2.1 (h1.2.2.2.2.1 h), fun h => h2.2.2.2.2.2 (h1.2.2.2.2.2 h)⟩

theorem flagsLe_set_location (s : ChessState) (l : ChessboardLocation)
    (p : Option ChessPiece) : flagsLe s (s.set_location l p) :=
  flagsLe_refl s

theorem flagsLe_stepEnPassantCapture (s : ChessState) (m : ChessMove)
    (piece : Option ChessPiece) : flagsLe s (stepEnPassantCapture s m piece).2 := by
  unfold stepEnPassantCapture
  split
  · exact flagsLe_refl s
  · exact flagsLe_refl s

theorem flagsLe_stepFifty (s : ChessState) (m : ChessMove)
    (piece : Option ChessPiece) : flagsLe s (stepFifty s m piece) := by
  unfold stepFifty
  split <;> exact ⟨id, id, id, id, id, id⟩

theorem flagsLe_stepEnPassantFlag (s : ChessState) (m : ChessMove)
    (piece : Option ChessPiece) : flagsLe s (stepEnPassantFlag s m piece) := by
  unfold stepEnPassantFlag
  split <;> exact ⟨id, id, id, id, id, id⟩

theorem flagsLe_stepRookFlag (s : ChessState) (x : ChessboardLocation) :
    flagsLe s (stepRookFlag s x) := by
  unfold stepRookFlag
  split_ifs <;> unfold flagsLe <;> simp

theorem flagsLe_stepCastle (s : ChessState) (m : ChessMove) (out : Bool) :
    flagsLe s (stepCastle s m out).2 := by
  unfold stepCastle ChessState.set_location
  cases s.turn <;> dsimp only <;> split_ifs <;> unfold flagsLe <;> simp

theorem flagsLe_turnFlip (s : ChessState) (c : ChessColor) :
    flagsLe s { s with turn := c } :=
  ⟨id, id, id, id, id, id⟩

/-- The flags never go from set to clear across a whole `move_piece` call,
whether it succeeds or fails. -/
theorem move_piece_flagsLe (s : ChessState) (m : ChessMove) :
    flagsLe s (s.move_piece m).2 := by
  unfold ChessState.move_piece
  split
  · exact flagsLe_refl s
  · dsimp only
    exact
      let s1 := s.set_location m.start none
      let piece := s.get_location m.start
      let r2 := stepEnPassantCapture s1 m piece
      let s3 := stepFifty r2.2 m piece
      let s4 := s3.set_location m.dest piece
      let s5 := stepEnPassantFlag s4 m piece
      let s6 := stepRookFlag s5 m.start
      let s7 := stepRookFlag s6 m.dest
      let r8 := stepCastle s7 m r2.1
      flagsLe_trans (flagsLe_set_location s m.start none)
        (flagsLe_trans (flagsLe_stepEnPassantCapture s1 m piece)
        (flagsLe_trans (flagsLe_stepFifty r2.2 m piece)
        (flagsLe_trans (flagsLe_set_location s3 m.dest piece)
        (flagsLe_trans (flagsLe_stepEnPassantFlag s4 m piece)
        (flagsLe_trans (flagsLe_stepRookFlag s5 m.start)
        (flagsLe_trans (flagsLe_stepRookFlag s6 m.dest)
        (flagsLe_trans (flagsLe_stepCastle s7 m r2.1)
          (flagsLe_turnFlip r8.2 r8.2.turn.not))))))))

/-- C9: each of the six castling-rights flags is monotone across any
`move_piece` call (successful or rejected): a flag that is true before the
call is still true after it. -/
theorem move_piece_flags_monotone (s : ChessState) (m : ChessMove) :
    (s.white_king_moved = true → (s.move_piece m).2.white_king_moved = true) ∧
    (s.black_king_moved = true → (s.move_piece m).2.black_king_moved = true) ∧
    (s.white_a_rook_moved = true → (s.move_piece m).2.white_a_rook_moved = true) ∧
    (s.black_a_rook_moved = true → (s.move_piece m).2.black_a_rook_moved = true) ∧
    (s.white_h_rook_moved = true → (s.move_piece m).2.white_h_rook_moved = true) ∧
    (s.black_h_rook_moved = true → (s.move_piece m).2.black_h_rook_moved = true) :=
  move_piece_flagsLe s m

/-- A starting position whose six flags are all already set, used as the C9
witness. -/
def allFlagsState : ChessState where
  board := initialBoard
  turn := ChessColor.White
  en_passant := none
  fifty_move_rule := 0
  white_king_moved := true
  black_king_moved := true
  white_a_rook_moved := true
  black_a_rook_moved := true
  white_h_rook_moved := true
  black_h_rook_moved := true

/-- Witness for C9 at a concrete input: all six set flags survive the move
e2-e4. -/
theorem move_piece_flags_monotone_witness :
    (allFlagsState.move_piece ⟨⟨1, 4⟩, ⟨3, 4⟩⟩).2.white_king_moved = true ∧
    (allFlagsState.move_piece ⟨⟨1, 4⟩, ⟨3, 4⟩⟩).2.black_king_moved = true ∧
    (allFlagsState.move_piece ⟨⟨1, 4⟩, ⟨3, 4⟩⟩).2.white_a_rook_moved = true ∧
    (allFlagsState.move_piece ⟨⟨1, 4⟩, ⟨3, 4⟩⟩).2.black_a_rook_moved = true ∧
    (allFlagsState.move_piece ⟨⟨1, 4⟩, ⟨3, 4⟩⟩).2.white_h_rook_moved = true ∧
    (allFlagsState.move_piece ⟨⟨1, 4⟩, ⟨3, 4⟩⟩).2.black_h_rook_moved = true := by
  obtain ⟨h1, h2, h3, h4, h5, h6⟩ :=
    move_piece_flags_monotone allFlagsState ⟨⟨1, 4⟩, ⟨3, 4⟩⟩
  exact ⟨h1 rfl, h2 rfl, h3 rfl, h4 rfl, h5 rfl, h6 rfl⟩

/-! ### C10: total board access through the masked conversions -/

theorem and_seven_eq_mod (n : Nat) : n &&& 7 = n % 8 := by
  have h := Nat.and_pow_two_sub_one_eq_mod n 3
  norm_num at h
  exact h

/-- C10: the `u8` to `Rank`/`File` conversions compute the value modulo 8
(the `& 7` mask), `ChessboardLocation::new` therefore accepts arbitrary
coordinates, and the indices used by `get_location` / `set_location` /
`take_piece` are always inside the 8 x 8 board. -/
theorem board_access_total (v r f : Nat) (_hv : v < 256) (s : ChessState)
    (loc : ChessboardLocation) (p : Option ChessPiece) :
    (rankFromU8 v).val = v % 8 ∧
    (fileFromU8 v).val = v % 8 ∧
    (locNew r f).rank.val = r % 8 ∧
    (locNew r f).file.val = f % 8 ∧
    loc.rank.val < 8 ∧ loc.file.val < 8 ∧
    s.get_location loc = s.board loc.rank loc.file ∧
    (s.set_location loc p).board loc.rank loc.file = p := by
  refine ⟨and_seven_eq_mod v, and_seven_eq_mod v, and_seven_eq_mod r,
    and_seven_eq_mod f, loc.rank.isLt, loc.file.isLt, rfl, ?_⟩
  simp [ChessState.set_location]

/-- Witness for C10 at concrete inputs (values above the board size). -/
theorem board_access_total_witness :
    (rankFromU8 200).val = 200 % 8 ∧
    (fileFromU8 200).val = 200 % 8 ∧
    (locNew 9 12).rank.val = 9 % 8 ∧
    (locNew 9 12).file.val = 12 % 8 ∧
    (⟨2, 3⟩ : ChessboardLocation).rank.val < 8 ∧
    (⟨2, 3⟩ : ChessboardLocation).file.val < 8 ∧
    initialState.get_location ⟨2, 3⟩ = initialState.board 2 3 ∧
    (initialState.set_location ⟨2, 3⟩ none).board 2 3 = none :=
  board_access_total 200 9 12 (by decide) initialState ⟨2, 3⟩ none

/-! ### C5: the board compaction is injective -/

theorem squareCode_lt : ∀ p : Option ChessPiece, squareCode p < 16 := by decide

theorem squareCode_injective :
    ∀ p q : Option ChessPiece, squareCode p = squareCode q → p = q := by decide

theorem shift_or_eq (i c : Nat) (hc : c < 16) : i <<< 4 ||| c = 16 * i + c := by
  have h16 : (2 : Nat) ^ 4 = 16 := by norm_num
  have hc2 : c < 2 ^ 4 := by rw [h16]; exact hc
  have h := Nat.mul_add_lt_is_or hc2 i
  rw [Nat.shiftLeft_eq, h16] at *
  rw [Nat.mul_comm i 16]
  exact h.symm

theorem compressRow_eq (row : Fin 8 → Option ChessPiece) :
    compressRow row =
      ((((((squareCode (row 0) * 16 + squareCode (row 1)) * 16 + squareCode (row 2)) * 16
        + squareCode (row 3)) * 16 + squareCode (row 4)) * 16 + squareCode (row 5)) * 16
        + squareCode (row 6)) * 16 + squareCode (row 7) := by
  have hfr : (List.finRange 8 : List (Fin 8)) = [0, 1, 2, 3, 4, 5, 6, 7] := by decide
  unfold compressRow
  rw [hfr]
  simp only [List.foldl_cons, List.foldl_nil]
  simp only [shift_or_eq _ _ (squareCode_lt _)]
  omega

theorem compressRow_injective (r1 r2 : Fin 8 → Option ChessPiece)
    (h : compressRow r1 = compressRow r2) : r1 = r2 := by
  rw [compressRow_eq r1, compressRow_eq r2] at h
  have a0 := squareCode_lt (r1 0)
  have a1 := squareCode_lt (r1 1)
  have a2 := squareCode_lt (r1 2)
  have a3 := squareCode_lt (r1 3)
  have a4 := squareCode_lt (r1 4)
  have a5 := squareCode_lt (r1 5)
  have a6 := squareCode_lt (r1 6)
  have a7 := squareCode_lt (r1 7)
  have b0 := squareCode_lt (r2 0)
  have b1 := squareCode_lt (r2 1)
  have b2 := squareCode_lt (r2 2)
  have b3 := squareCode_lt (r2 3)
  have b4 := squareCode_lt (r2 4)
  have b5 := squareCode_lt (r2 5)
  have b6 := squareCode_lt (r2 6)
  have b7 := squareCode_lt (r2 7)
  have e0 : squareCode (r1 0) = squareCode (r2 0) := by omega
  have e1 : squareCode (r1 1) = squareCode (r2 1) := by omega
  have e2 : squareCode (r1 2) = squareCode (r2 2) := by omega
  have e3 : squareCode (r1 3) = squareCode (r2 3) := by omega
  have e4 : squareCode (r1 4) = squareCode (r2 4) := by omega
  have e5 : squareCode (r1 5) = squareCode (r2 5) := by omega
  have e6 : squareCode (r1 6) = squareCode (r2 6) := by omega
  have e7 : squareCode (r1 7) = squareCode (r2 7) := by omega
  funext y
  rcases y with ⟨yv, hy⟩
  interval_cases yv
  · exact squareCode_injective _ _ e0
  · exact squareCode_injective _ _ e1
  · exact squareCode_injective _ _ e2
  · exact squareCode_injective _ _ e3
  · exact squareCode_injective _ _ e4
  · exact squareCode_injective _ _ e5
  · exact squareCode_injective _ _ e6
  · exact squareCode_injective _ _ e7

theorem map_finRange_inj {α : Type} (g1 g2 : Fin 8 → α)
    (h : (List.finRange 8).map g1 = (List.finRange 8).map g2) :
    ∀ x : Fin 8, g1 x = g2 x := by
  have hall : ∀ (l : List (Fin 8)), l.map g1 = l.map g2 → ∀ x ∈ l, g1 x = g2 x := by
    intro l
    induction l with
    | nil =>
      intro _ x hx
      cases hx
    | cons a as ih =>
      intro hmap x hx
      simp only [List.map_cons, List.cons.injEq] at hmap
      rcases List.mem_cons.mp hx with hx | hx
      · exact hx ▸ hmap.1
      · exact ih hmap.2 x hx
  intro x
  exact hall (List.finRange 8) h x (List.mem_finRange x)

/-- C5: `compress_chessboard` is injective — two boards have bit-identical
compacted forms iff they are equal (so comparing compacted snapshots, as
the repetition check does, coincides with comparing boards) — and an empty
square is encoded by the zero nibble. -/
theorem compress_chessboard_inj_iff (b1 b2 : Chessboard) :
    (compress_chessboard b1 = compress_chessboard b2 ↔ b1 = b2) ∧
    squareCode none = 0 := by
  refine ⟨⟨fun h => ?_, fun h => by rw [h]⟩, rfl⟩
  have hrow := map_finRange_inj _ _ h
  funext r
  exact compressRow_injective (b1 r) (b2 r) (hrow r)

/-- The empty board, used by witnesses. -/
def emptyBoard : Chessboard := fun _ _ => none

/-- Witness for C5 at concrete boards. -/
theorem compress_chessboard_inj_witness :
    compress_chessboard initialBoard = compress_chessboard emptyBoard ↔
      initialBoard = emptyBoard :=
  (compress_chessboard_inj_iff initialBoard emptyBoard).1

/-! ### C4: the adjacent-king short-circuit of `check_game_end` is dead -/

theorem absDiff_eq_sub (a b : Nat) : absDiff a b = (a - b) + (b - a) := by
  unfold absDiff
  split <;> omega

/-- `moves::king` rejects every move whose rank distance is at least 2,
whatever the attack oracle answers. -/
theorem kingMoveA_far (att : ChessState → ChessboardLocation → Bool) (s : ChessState)
    (m : ChessMove) (h : 2 ≤ absDiff m.start.rank.val m.dest.rank.val) :
    kingMoveA att s m = false := by
  rw [absDiff_eq_sub] at h
  have h1 : ¬(absDiff m.start.rank.val m.dest.rank.val ≤ 1
      ∧ absDiff m.start.file.val m.dest.file.val ≤ 1) := by
    simp only [absDiff_eq_sub]
    omega
  have h2 : ¬(absDiff m.start.file.val m.dest.file.val = 2
      ∧ absDiff m.start.rank.val m.dest.rank.val = 0) := by
    simp only [absDiff_eq_sub]
    omega
  simp only [kingMoveA]
  rw [if_neg h1, if_neg h2]

/-- One item of the adjacent-king offset loop contributes nothing: either
the wraparound guard `rank <= 7 || file <= 7` skips the offset, or both
coordinates wrapped (only possible for a corner king with a diagonal
offset) and the masked target is 7 ranks away, which `moves::king`
rejects. -/
theorem adjItem_false (s : ChessState) (loc : ChessboardLocation) (d1 d2 : Int)
    (hd : d1 = -1 ∨ d1 = 0 ∨ d1 = 1) :
    (if wrapAddSigned loc.rank.val d1 ≤ 7 ∨ wrapAddSigned loc.file.val d2 ≤ 7 then false
     else kingMoveA (fun a b => isAttackedFuel attackFuel a b) s
       ⟨loc, locNew (wrapAddSigned loc.rank.val d1) (wrapAddSigned loc.file.val d2)⟩)
    = false := by
  by_cases hg : wrapAddSigned loc.rank.val d1 ≤ 7 ∨ wrapAddSigned loc.file.val d2 ≤ 7
  · rw [if_pos hg]
  · rw [if_neg hg]
    push_neg at hg
    have hrk := loc.rank.isLt
    have hcase : (loc.rank.val = 7 ∧ wrapAddSigned loc.rank.val d1 = 8) ∨
        (loc.rank.val = 0 ∧ wrapAddSigned loc.rank.val d1 = 255) := by
      unfold wrapAddSigned at hg ⊢
      rcases hd with h | h | h <;> subst h <;> omega
    apply kingMoveA_far
    simp only [locNew, rankFromU8]
    rcases hcase with ⟨h7, h8⟩ | ⟨h0, h255⟩
    · rw [h8, h7]
      decide
    · rw [h255, h0]
      decide

theorem adjEscape_false (s : ChessState) (loc : ChessboardLocation) :
    adjEscape s loc = false := by
  unfold adjEscape kingOffsets
  simp only [List.any_cons, List.any_nil, Bool.or_eq_false_iff]
  refine ⟨?_, ?_, ?_, ?_, ?_, ?_, ?_, ?_, trivial⟩
  · exact adjItem_false s loc (-1) (-1) (by norm_num)
  · exact adjItem_false s loc (-1) 0 (by norm_num)
  · exact adjItem_false s loc (-1) 1 (by norm_num)
  · exact adjItem_false s loc 0 1 (by norm_num)
  · exact adjItem_false s loc 1 1 (by norm_num)
  · exact adjItem_false s loc 1 0 (by norm_num)
  · exact adjItem_false s loc 1 (-1) (by norm_num)
  · exact adjItem_false s loc 0 (-1) (by norm_num)

theorem kingScan_foldl (s : ChessState) (l : List (Fin 8)) (cur : Option ChessboardLocation) :
    l.foldl (fun acc x =>
      match acc with
      | Except.error e => Except.error e
      | Except.ok cur2 =>
        match rowKing s x with
        | none => Except.ok cur2
        | some loc =>
          if adjEscape s loc = true then Except.error () else Except.ok (some loc))
      (Except.ok cur)
    = Except.ok (l.foldl (fun cur2 x =>
        match rowKing s x with
        | none => cur2
        | some loc => some loc) cur) := by
  induction l generalizing cur with
  | nil => rfl
  | cons x xs ih =>
    rcases hrk : rowKing s x with _ | loc
    · simp only [List.foldl_cons, hrk]
      exact ih cur
    · simp only [List.foldl_cons, hrk]
      rw [adjEscape_false s loc, if_neg (show ¬(false = true) by simp)]
      exact ih (some loc)

theorem kingScan_eq (s : ChessState) : kingScan s = Except.ok (kingScanSimple s) := by
  unfold kingScan kingScanSimple
  exact kingScan_foldl s (List.finRange 8) none

/-- C4: the adjacent-king short-circuit at the start of the end detector
never fires (its guard only lets through corner-king offsets whose masked
target `moves::king` always rejects), so `check_game_end` agrees with the
identical detector whose adjacent-square scan is removed and which relies
solely on the exhaustive sweep. -/
theorem check_game_end_scan_dead (s : ChessState) (hist : List Chessboard) :
    s.check_game_end hist = checkGameEndNoScan s hist := by
  unfold ChessState.check_game_end checkGameEndNoScan
  rw [kingScan_eq]

/-! ### C6: the end detector with no draw condition pending -/

theorem allLocs_mem : ∀ l : ChessboardLocation, l ∈ allLocs := by decide

theorem existsValidMove_iff (s : ChessState) :
    existsValidMove s = true ↔ ∃ m : ChessMove, s.is_valid_move m = true := by
  unfold existsValidMove
  rw [List.any_eq_true]
  constructor
  · rintro ⟨l1, _, h⟩
    rw [List.any_eq_true] at h
    obtain ⟨l2, _, h2⟩ := h
    exact ⟨⟨l1, l2⟩, h2⟩
  · rintro ⟨m, hm⟩
    refine ⟨m.start, allLocs_mem m.start, ?_⟩
    rw [List.any_eq_true]
    exact ⟨m.dest, allLocs_mem m.dest, hm⟩

/-- When no draw branch fires, `check_game_end` reduces to the verdict of
the exhaustive sweep (the adjacent-king scan contributes nothing by
`kingScan_eq`). -/
theorem check_game_end_verdict (s : ChessState) (hist : List Chessboard)
    (h50 : s.fifty_move_rule ≠ 50)
    (hrep : hist.countP (fun b => decide (b = s.board)) ≠ 3)
    (hmat : insufficientMaterial s = false) :
    s.check_game_end hist = endVerdict s (kingScanSimple s) := by
  unfold ChessState.check_game_end
  rw [kingScan_eq, if_neg h50, if_neg hrep, if_neg (by simp [hmat])]

/-- C6: if no draw condition holds (clock not at 50, fewer than three
occurrences of the board in the history, not the insufficient-material
shape) and the king scan finds the side-to-move king, then
`check_game_end` returns no result exactly when some (from, to) pair is a
fully legal move, and with no legal move it returns checkmate for the other
side when that king is attacked and the stalemate draw otherwise. -/
theorem check_game_end_no_draw_spec (s : ChessState) (hist : List Chessboard)
    (kloc : ChessboardLocation)
    (h50 : s.fifty_move_rule ≠ 50)
    (hrep : hist.countP (fun b => decide (b = s.board)) < 3)
    (hmat : insufficientMaterial s = false)
    (hking : kingScanSimple s = some kloc) :
    (s.check_game_end hist = none ↔ ∃ m : ChessMove, s.is_valid_move m = true) ∧
    ((¬ ∃ m : ChessMove, s.is_valid_move m = true) →
      s.check_game_end hist =
        some (if s.is_attacked kloc = true then
            match s.turn with
            | ChessColor.White => GameEnd.Black EndReason.Checkmate
            | ChessColor.Black => GameEnd.White EndReason.Checkmate
          else GameEnd.Draw EndReason.Stalemate)) := by
  have hrep2 : hist.countP (fun b => decide (b = s.board)) ≠ 3 := by omega
  rw [check_game_end_verdict s hist h50 hrep2 hmat, hking]
  unfold endVerdict
  by_cases hex : existsValidMove s = true
  · rw [if_pos hex]
    exact ⟨⟨fun _ => (existsValidMove_iff s).mp hex, fun _ => rfl⟩,
      fun hno => absurd ((existsValidMove_iff s).mp hex) hno⟩
  · rw [if_neg hex]
    refine ⟨⟨fun h => by simp at h, fun hex2 => absurd ((existsValidMove_iff s).mpr hex2) hex⟩,
      fun _ => rfl⟩

/-- The bare two-kings position with the clock at 0, used as the C6
witness. -/
def twoKingsState : ChessState where
  board := kingsOnlyBoard
  turn := ChessColor.White
  en_passant := none
  fifty_move_rule := 0
  white_king_moved := false
  black_king_moved := false
  white_a_rook_moved := false
  black_a_rook_moved := false
  white_h_rook_moved := false
  black_h_rook_moved := false

/-- Witness for C6: in the two-kings position the game continues because
the king move a1-b1 is legal. -/
theorem check_game_end_no_draw_witness : twoKingsState.check_game_end [] = none :=
  (check_game_end_no_draw_spec twoKingsState [] ⟨0, 0⟩ (by decide) (by decide)
    (by decide) (by decide)).1.mpr ⟨⟨⟨0, 0⟩, ⟨0, 1⟩⟩, by decide⟩

/-! ### C1: the promotion protocol (modelled from the spec) -/

/-- The last rank for a color (rank Eight for White, rank One for Black). -/
def finalRank (c : ChessColor) : Fin 8 :=
  match c with
  | ChessColor.White => 7
  | ChessColor.Black => 0

/-- Modelled from the spec: the `should_promote` field of `ChessState` is
referenced by the server (`state.state.should_promote`) and the client but
is absent from the provided engine sources; spec section 4.2 step 8 and the
data-model entry for `pendingPromotion` describe it.  It is carried here
alongside the embedded `ChessState`. -/
structure PromotionState where
  core : ChessState
  should_promote : Bool

/-- Modelled from the spec: `move_piece` under the pending-promotion
protocol — while `pendingPromotion` is true every move command is rejected;
a successful move sets the flag exactly when a pawn move ends on the final
rank for its color (spec section 4.2 step 8). -/
def PromotionState.move_piece (p : PromotionState) (m : ChessMove) :
    Option Bool × PromotionState :=
  if p.should_promote = true then (none, p)
  else
    match (p.core.move_piece m).1 with
    | none => (none, p)
    | some out =>
      (some out, ⟨(p.core.move_piece m).2,
        decide (isPawn (p.core.get_location m.start) = true
          ∧ m.dest.rank = finalRank p.core.turn)⟩)

/-- Modelled from the spec: `promote(kind)` is rejected if no promotion is
pending or the chosen kind is King or Pawn; otherwise it replaces the
promoting pawn (the pawn of the side that just moved, sitting on its final
rank) with the chosen piece and clears the flag (spec section 4.2 step 8).
`promote` is absent from the provided engine sources though the server and
client call it. -/
def PromotionState.promote (p : PromotionState) (kind : ChessPieceType) :
    Option PromotionState :=
  if p.should_promote = false ∨ kind = ChessPieceType.King
      ∨ kind = ChessPieceType.Pawn then none
  else
    some ⟨(match (List.finRange 8).find? (fun f =>
        decide (p.core.board (finalRank p.core.turn.not) f
          = some ⟨p.core.turn.not, ChessPieceType.Pawn⟩)) with
      | some f => p.core.set_location ⟨finalRank p.core.turn.not, f⟩
          (some ⟨p.core.turn.not, kind⟩)
      | none => p.core), false⟩

/-- C1 (spec-modelled): while `pendingPromotion` is set, `move_piece`
rejects every move and changes nothing; a successful move records a
pending promotion exactly when a pawn reached the final rank for its
color; `promote` is rejected exactly when no promotion is pending or the
chosen kind is King or Pawn, and on success it clears the flag and puts
the chosen piece (in the promoting color) on the promoting pawn square. -/
theorem promotion_protocol_spec (p : PromotionState) (m : ChessMove)
    (kind : ChessPieceType) :
    (p.should_promote = true → p.move_piece m = (none, p)) ∧
    (p.should_promote = false → (p.move_piece m).1 ≠ none →
      ((p.move_piece m).2.should_promote = true ↔
        (isPawn (p.core.get_location m.start) = true
          ∧ m.dest.rank = finalRank p.core.turn))) ∧
    (p.promote kind = none ↔
      (p.should_promote = false ∨ kind = ChessPieceType.King
        ∨ kind = ChessPieceType.Pawn)) ∧
    (∀ q, p.promote kind = some q →
      q.should_promote = false ∧
      ∀ f, (List.finRange 8).find? (fun f2 =>
          decide (p.core.board (finalRank p.core.turn.not) f2
            = some ⟨p.core.turn.not, ChessPieceType.Pawn⟩)) = some f →
        q.core.get_location ⟨finalRank p.core.turn.not, f⟩
          = some ⟨p.core.turn.not, kind⟩) := by
  refine ⟨?_, ?_, ?_, ?_⟩
  · intro h
    unfold PromotionState.move_piece
    rw [if_pos h]
  · intro h hne
    unfold PromotionState.move_piece at hne ⊢
    rw [if_neg (by simp [h])] at hne ⊢
    rcases hr : (p.core.move_piece m).1 with _ | out
    · rw [hr] at hne
      exact absurd rfl hne
    · simp
  · unfold PromotionState.promote
    by_cases hc : p.should_promote = false ∨ kind = ChessPieceType.King
        ∨ kind = ChessPieceType.Pawn
    · rw [if_pos hc]
      simp [hc]
    · rw [if_neg hc]
      simp [hc]
  · intro q hq
    unfold PromotionState.promote at hq
    by_cases hc : p.should_promote = false ∨ kind = ChessPieceType.King
        ∨ kind = ChessPieceType.Pawn
    · rw [if_pos hc] at hq
      exact absurd hq (by simp)
    · rw [if_neg hc] at hq
      have hq2 := Option.some.inj hq
      refine ⟨?_, ?_⟩
      · rw [← hq2]
      · intro f hf
        rw [← hq2]
        dsimp only
        rw [hf]
        exact get_set_self _ _ _

/-- A position in which White has just pushed a pawn to a8 and the
promotion choice is pending (Black to move in the core state). -/
def pendingPromoState : PromotionState where
  core :=
    { board := fun r f =>
        if r = 7 ∧ f = 0 then some ⟨ChessColor.White, ChessPieceType.Pawn⟩
        else if r = 0 ∧ f = 4 then some ⟨ChessColor.White, ChessPieceType.King⟩
        else if r = 6 ∧ f = 7 then some ⟨ChessColor.Black, ChessPieceType.King⟩
        else none
      turn := ChessColor.Black
      en_passant := none
      fifty_move_rule := 0
      white_king_moved := false
      black_king_moved := false
      white_a_rook_moved := false
      black_a_rook_moved := false
      white_h_rook_moved := false
      black_h_rook_moved := false }
  should_promote := true

/-- Witness for C1 at concrete inputs: a pending promotion blocks the move
command and makes `promote(King)` fail, and on a completed quiet king move
from the two-kings position the recorded pending-promotion bit agrees with
the pawn-on-final-rank test. -/
theorem promotion_protocol_witness :
    pendingPromoState.move_piece ⟨⟨6, 7⟩, ⟨5, 7⟩⟩ = (none, pendingPromoState) ∧
    pendingPromoState.promote ChessPieceType.King = none ∧
    (((⟨twoKingsState, false⟩ : PromotionState).move_piece
        ⟨⟨0, 0⟩, ⟨0, 1⟩⟩).2.should_promote = true ↔
      (isPawn (twoKingsState.get_location ⟨0, 0⟩) = true
        ∧ (⟨0, 1⟩ : ChessboardLocation).rank = finalRank twoKingsState.turn)) :=
  ⟨(promotion_protocol_spec pendingPromoState ⟨⟨6, 7⟩, ⟨5, 7⟩⟩ ChessPieceType.King).1 rfl,
   (promotion_protocol_spec pendingPromoState ⟨⟨6, 7⟩, ⟨5, 7⟩⟩
      ChessPieceType.King).2.2.1.mpr (Or.inr (Or.inl rfl)),
   (promotion_protocol_spec ⟨twoKingsState, false⟩ ⟨⟨0, 0⟩, ⟨0, 1⟩⟩
      ChessPieceType.King).2.1 rfl (by decide)⟩

/-! ### C2: the castling block fires for non-king moves (counter-evidence) -/

/-- White rooks on e1 and h1, White king on c3, Black king on a8, White to
move.  The rook move e1-g1 is an ordinary legal rook move, yet the
`// castling` block of `move_piece` fires on the from-square/to-file test
alone. -/
def phantomCastleState : ChessState where
  board := fun r f =>
    if r = 0 ∧ f = 4 then some ⟨ChessColor.White, ChessPieceType.Rook⟩
    else if r = 0 ∧ f = 7 then some ⟨ChessColor.White, ChessPieceType.Rook⟩
    else if r = 2 ∧ f = 2 then some ⟨ChessColor.White, ChessPieceType.King⟩
    else if r = 7 ∧ f = 0 then some ⟨ChessColor.Black, ChessPieceType.King⟩
    else none
  turn := ChessColor.White
  en_passant := none
  fifty_move_rule := 0
  white_king_moved := false
  black_king_moved := false
  white_a_rook_moved := false
  black_a_rook_moved := false
  white_h_rook_moved := false
  black_h_rook_moved := false

/-- C2 fails on the code: the piece on e1 is a rook, the rook move e1-g1 is
accepted, and nevertheless `move_piece` relocates the h1 rook to f1,
reports a redraw, and marks the white king as moved — the rook relocation
is not restricted to king moves, contradicting spec section 4.2 step 7
(`If the move is a king move of two files from its start square ...`) and
the block's own `// castling` comment. -/
theorem phantom_castling_on_rook_move :
    phantomCastleState.get_location ⟨0, 4⟩
      = some ⟨ChessColor.White, ChessPieceType.Rook⟩ ∧
    (phantomCastleState.move_piece ⟨⟨0, 4⟩, ⟨0, 6⟩⟩).1 = some true ∧
    (phantomCastleState.move_piece ⟨⟨0, 4⟩, ⟨0, 6⟩⟩).2.get_location ⟨0, 5⟩
      = some ⟨ChessColor.White, ChessPieceType.Rook⟩ ∧
    (phantomCastleState.move_piece ⟨⟨0, 4⟩, ⟨0, 6⟩⟩).2.get_location ⟨0, 7⟩ = none ∧
    (phantomCastleState.move_piece ⟨⟨0, 4⟩, ⟨0, 6⟩⟩).2.white_king_moved = true := by
  decide

end RUCG
